import Mathlib

/-!
# Verification of the babylon-staking-indexer core against its specification

Shallow embedding of the repository's timelock-marker store operations
(`SaveNewTimeLockExpire`, `FindExpiredDelegations`, `DeleteExpiredDelegation`),
the conditional delegation-state update (`UpdateBTCDelegationState`), the
generic `Poller`, the versioned staking-parameter snapshot
(`FromBbnStakingParams`), the API error constructor (`NewError`) and the
indexed-block round trip (`NewIndexedBlockFromMsgBlock` / `MsgBlock`).

The MongoDB collection holding timelock markers is modelled as a list of
documents in natural (insertion) order; `InsertOne` enforces uniqueness of the
`_id` field, `Find` filters in natural order and applies the driver's limit
semantics, `DeleteOne` removes the first matching document.
-/

namespace Indexer

/-- Delegation lifecycle states.  Modelled from the spec: the repository's
`types.DelegationState` enumeration (internal/types, not under src/) — states
PENDING, VERIFIED, ACTIVE, UNBONDING, UNBONDED, WITHDRAWN, SLASHED of §4.1. -/
inductive DelegationState
  | pending
  | verified
  | active
  | unbonding
  | unbonded
  | withdrawn
  | slashed
  deriving DecidableEq, Repr

/-- Delegation sub-states.  Modelled from the spec: the repository's
`types.DelegationSubState` refinement (internal/types, not under src/),
distinguishing why a terminal/expiry state was reached (e.g. TIMELOCK,
EARLY_UNBONDING). -/
inductive DelegationSubState
  | timelock
  | earlyUnbonding
  | timelockSlashing
  | earlyUnbondingSlashing
  deriving DecidableEq, Repr

/-- The timelock marker document.  `model.TimeLockDocument` is not under src/,
but src's `DeleteExpiredDelegation` filters the collection by
`bson.M{"_id": stakingTxHashHex}`, which fixes the document's unique `_id`
field as the staking transaction hash alone; `expire_height` is the field
queried by `FindExpiredDelegations`. -/
structure TimeLockDocument where
  stakingTxHashHex : String
  expireHeight : Nat
  delegationSubState : DelegationSubState
  deriving DecidableEq, Repr

/-- `model.NewTimeLockDocument`: builds the document inserted by
`SaveNewTimeLockExpire`. -/
def NewTimeLockDocument (stakingTxHashHex : String) (expireHeight : Nat)
    (subState : DelegationSubState) : TimeLockDocument :=
  ⟨stakingTxHashHex, expireHeight, subState⟩

/-- Errors surfaced by the store operations under verification. -/
inductive DbError
  | duplicateKey
  | notFound
  deriving DecidableEq, Repr

/-- MongoDB `InsertOne` on a collection whose unique key is the `_id`
(= `stakingTxHashHex`) field: fails with a duplicate-key error when a document
with the same `_id` is already present, otherwise appends the document. -/
def insertOne (coll : List TimeLockDocument) (doc : TimeLockDocument) :
    Except DbError (List TimeLockDocument) :=
  if coll.any (fun d => d.stakingTxHashHex = doc.stakingTxHashHex) then
    .error .duplicateKey
  else
    .ok (coll ++ [doc])

/-- `Database.SaveNewTimeLockExpire`: inserts
`NewTimeLockDocument(stakingTxHashHex, expireHeight, subState)` into the
timelock collection via `InsertOne`. -/
def SaveNewTimeLockExpire (coll : List TimeLockDocument)
    (stakingTxHashHex : String) (expireHeight : Nat)
    (subState : DelegationSubState) : Except DbError (List TimeLockDocument) :=
  insertOne coll (NewTimeLockDocument stakingTxHashHex expireHeight subState)

/-- Go's `int64(x)` conversion of a `uint64` value: values below `2^63` are
unchanged, values at or above `2^63` wrap to negatives. -/
def int64OfUInt64 (n : Nat) : Int :=
  let m : Nat := n % 2 ^ 64
  if m < 2 ^ 63 then (m : Int) else (m : Int) - 2 ^ 64

/-- The mongo driver's `SetLimit` semantics applied to a result list: a limit
of 0 means no limit; a positive limit returns at most that many documents; a
negative limit returns at most its absolute value (single batch). -/
def applyFindLimit (limit : Int) (docs : List TimeLockDocument) :
    List TimeLockDocument :=
  if limit = 0 then docs else docs.take limit.natAbs

/-- `Database.FindExpiredDelegations`: `Find` on the timelock collection with
filter `expire_height <= btcTipHeight` and option `SetLimit(int64(limit))`.
No sort option is set, so documents come back in the collection's natural
order. -/
def FindExpiredDelegations (coll : List TimeLockDocument)
    (btcTipHeight limit : Nat) : List TimeLockDocument :=
  applyFindLimit (int64OfUInt64 limit)
    (coll.filter (fun d => d.expireHeight ≤ btcTipHeight))

/-- MongoDB `DeleteOne` with filter `_id = hash`: removes the first document
whose `_id` matches, returning the new collection and the deleted count. -/
def deleteOne (coll : List TimeLockDocument) (hash : String) :
    List TimeLockDocument × Nat :=
  match coll with
  | [] => ([], 0)
  | d :: rest =>
    if d.stakingTxHashHex = hash then (rest, 1)
    else
      let r := deleteOne rest hash
      (d :: r.1, r.2)

/-- `Database.DeleteExpiredDelegation`: `DeleteOne` by `_id`; when
`DeletedCount = 0` it reports a not-found error, otherwise success.  The pair
carries the resulting collection so that "nothing else changed" is expressible. -/
def DeleteExpiredDelegation (coll : List TimeLockDocument) (hash : String) :
    List TimeLockDocument × Option DbError :=
  let r := deleteOne coll hash
  if r.2 = 0 then (r.1, some .notFound) else (r.1, none)

/-- The ordering the spec claims for the expiry scan: ascending
`expireHeight`, ties broken by `stakingTxHash`. -/
def markerLe (a b : TimeLockDocument) : Bool :=
  a.expireHeight < b.expireHeight ∨
    (a.expireHeight = b.expireHeight ∧ a.stakingTxHashHex ≤ b.stakingTxHashHex)

/-- Whether a list of markers is sorted ascending by (expireHeight,
stakingTxHash). -/
def isSortedByHeightThenHash : List TimeLockDocument → Bool
  | [] => true
  | [_] => true
  | a :: b :: rest => markerLe a b && isSortedByHeightThenHash (b :: rest)

/-- The stored delegation record.  Modelled from the spec: the repository's
`model.BTCDelegationDetails` document (internal/db/model, not under src/) —
§3's DelegationRecord: immutable `stakingTxHash` identity, `state`,
optional `subState`, append-only `covenantSignatures`, optional
`expiryHeight`, immutable `finalityProviderKeys`. -/
structure DelegationRecord where
  stakingTxHash : String
  state : DelegationState
  subState : Option DelegationSubState
  covenantSignatures : List (String × String)
  expiryHeight : Option Nat
  finalityProviderKeys : List String
  deriving DecidableEq, Repr

/-- Outcome of the conditional state update. -/
inductive UpdateOutcome
  | applied
  | preconditionFailed
  deriving DecidableEq, Repr

/-- Per-record mutation of the conditional state update: sets the state and
sub-state on the record with the given hash, leaving every other field and
every other record untouched. -/
def setDelegationState (stakingTxHash : String) (newState : DelegationState)
    (newSubState : Option DelegationSubState) (r : DelegationRecord) :
    DelegationRecord :=
  if r.stakingTxHash = stakingTxHash then
    { r with state := newState, subState := newSubState }
  else r

/-- Modelled from the spec: `Database.UpdateBTCDelegationState` (the concrete
method behind the `DbInterface` declaration is not under src/) —
`conditionalUpdateState(hash, fromStates, toState, toSubState) ->
Applied | PreconditionFailed`: sets `state = newState` (and the sub-state)
only where the currently stored state is a member of
`qualifiedPreviousStates`; otherwise the record is untouched and the call
reports a precondition failure.  Returns the resulting store together with
the outcome. -/
def UpdateBTCDelegationState (store : List DelegationRecord)
    (stakingTxHash : String) (qualifiedPreviousStates : List DelegationState)
    (newState : DelegationState) (newSubState : Option DelegationSubState) :
    List DelegationRecord × UpdateOutcome :=
  match store.find? (fun r => r.stakingTxHash = stakingTxHash) with
  | none => (store, .preconditionFailed)
  | some r =>
    if r.state ∈ qualifiedPreviousStates then
      (store.map (setDelegationState stakingTxHash newState newSubState),
        .applied)
    else
      (store, .preconditionFailed)

/-! ## The poller

`Poller.Start` is a `select` loop over three channels: the ticker, the
context's done channel and the poller's `quit` channel.  Each loop iteration
is one channel receive, so a run of the loop is determined by the sequence of
signals the `select` delivers.  We embed that sequence explicitly. -/

/-- One signal delivered to `Poller.Start`'s `select`: a ticker tick (with
whether `pollMethod` returns an error on that tick), context cancellation, or
a receive on the closed `quit` channel. -/
inductive PollSignal
  | tick (pollErr : Bool)
  | ctxDone
  | quit
  deriving DecidableEq, Repr

/-- Why `Poller.Start`'s loop returned. -/
inductive ExitReason
  | ctxCancelled
  | quitClosed
  deriving DecidableEq, Repr

/-- `Poller.Start`: processes the delivered signals in order.  A tick invokes
`pollMethod`; a non-nil error is only logged and the loop continues.  The loop
returns on `ctx.Done()` or on the `quit` channel.  Result: the exit reason
(`none` when every signal was consumed without returning) and the number of
`pollMethod` invocations. -/
def pollerStart : List PollSignal → Option ExitReason × Nat
  | [] => (none, 0)
  | .tick _ :: rest =>
    let r := pollerStart rest
    (r.1, r.2 + 1)
  | .ctxDone :: _ => (some .ctxCancelled, 0)
  | .quit :: _ => (some .quitClosed, 0)

/-- The `Poller`'s `quit` channel state: Go channels panic when closed twice. -/
structure PollerQuitChannel where
  closed : Bool
  deriving DecidableEq, Repr

/-- `NewPoller` allocates an open `quit` channel (`make(chan struct{})`). -/
def NewPoller : PollerQuitChannel := ⟨false⟩

/-- Result of `Poller.Stop`: either the new channel state or a Go runtime
panic ("close of closed channel"). -/
inductive StopResult
  | ok (s : PollerQuitChannel)
  | panicCloseOfClosedChannel
  deriving DecidableEq, Repr

/-- `Poller.Stop`: `close(p.quit)`.  Go's `close` on an already-closed channel
panics. -/
def PollerStop (p : PollerQuitChannel) : StopResult :=
  if p.closed then .panicCloseOfClosedChannel else .ok ⟨true⟩

/-! ## Versioned staking parameters (`internal/clients/bbnclient/types.go`) -/

/-- The inputs `FromBbnStakingParams` reads from the chain's
`stakingtypes.Params` (an external babylon type): each field or accessor the
function uses, taken as given. -/
structure BbnParams where
  CovenantPksHex : List String
  CovenantQuorum : Nat
  MinStakingValueSat : Int
  MaxStakingValueSat : Int
  MinStakingTimeBlocks : Nat
  MaxStakingTimeBlocks : Nat
  SlashingPkScript : List Nat
  MinSlashingTxFeeSat : Int
  SlashingRateStr : String
  MinUnbondingTimeBlocks : Nat
  UnbondingFeeSat : Int
  MinCommissionRateStr : String
  MaxActiveFinalityProviders : Nat
  DelegationCreationBaseGasFee : Nat
  deriving DecidableEq, Repr

/-- `bbnclient.StakingParams`: the versioned snapshot persisted by the
indexer. -/
structure StakingParams where
  CovenantPks : List String
  CovenantQuorum : Nat
  MinStakingValueSat : Int
  MaxStakingValueSat : Int
  MinStakingTimeBlocks : Nat
  MaxStakingTimeBlocks : Nat
  SlashingPkScript : String
  MinSlashingTxFeeSat : Int
  SlashingRate : String
  MinUnbondingTimeBlocks : Nat
  UnbondingFeeSat : Int
  MinCommissionRate : String
  MaxActiveFinalityProviders : Nat
  DelegationCreationBaseGasFee : Nat
  deriving DecidableEq, Repr

/-- Lower-case hex digit for a value below 16. -/
def hexDigit (n : Nat) : Char :=
  if n < 10 then Char.ofNat (48 + n) else Char.ofNat (87 + n)

/-- `hex.EncodeToString` on a byte slice: two lower-case hex digits per byte. -/
def hexEncodeToString (bytes : List Nat) : String :=
  String.mk (bytes.foldr (fun b acc =>
    hexDigit (b % 256 / 16) :: hexDigit (b % 16) :: acc) [])

/-- `FromBbnStakingParams`: builds the snapshot from the chain parameters. -/
def FromBbnStakingParams (params : BbnParams) : StakingParams :=
  { CovenantPks := params.CovenantPksHex
    CovenantQuorum := params.CovenantQuorum
    MinStakingValueSat := params.MinStakingValueSat
    MaxStakingValueSat := params.MaxStakingValueSat
    MinStakingTimeBlocks := params.MinStakingTimeBlocks
    MaxStakingTimeBlocks := params.MaxStakingTimeBlocks
    SlashingPkScript := hexEncodeToString params.SlashingPkScript
    MinSlashingTxFeeSat := params.MinSlashingTxFeeSat
    SlashingRate := params.SlashingRateStr
    MinUnbondingTimeBlocks := params.MinUnbondingTimeBlocks
    UnbondingFeeSat := params.UnbondingFeeSat
    MinCommissionRate := params.MinCommissionRateStr
    MaxActiveFinalityProviders := params.MaxActiveFinalityProviders
    DelegationCreationBaseGasFee := params.DelegationCreationBaseGasFee }

/-! ## API errors (`internal/types/error.go`) -/

/-- A Go `error` interface value (only its identity matters here). -/
structure GoErr where
  msg : String
  deriving DecidableEq, Repr

/-- `types.ErrorCode` is a string type. -/
abbrev ApiErrorCode := String

/-- `types.InternalServiceError`. -/
def InternalServiceError : ApiErrorCode := "INTERNAL_SERVICE_ERROR"

/-- `types.Error`: an error with an HTTP status code and an
application-specific error code. -/
structure ApiError where
  Err : GoErr
  StatusCode : Int
  ErrorCode : ApiErrorCode
  deriving DecidableEq, Repr

/-- `types.UninitializedStatusCode`. -/
def UninitializedStatusCode : Int := 0

/-- `http.StatusInternalServerError`. -/
def httpStatusInternalServerError : Int := 500

/-- `types.NewError`: defaults the status code to 500 when uninitialized (0)
and the error code to INTERNAL_SERVICE_ERROR when empty. -/
def NewError (statusCode : Int) (errorCode : ApiErrorCode) (err : GoErr) :
    ApiError :=
  let statusCode :=
    if statusCode = UninitializedStatusCode then httpStatusInternalServerError
    else statusCode
  let errorCode := if errorCode = "" then InternalServiceError else errorCode
  { StatusCode := statusCode, ErrorCode := errorCode, Err := err }

/-! ## Indexed blocks (`internal/types/block.go`) -/

/-- `wire.BlockHeader` (external btcd type): the fixed header fields. -/
structure BlockHeader where
  Version : Int
  PrevBlock : List Nat
  MerkleRoot : List Nat
  Timestamp : Nat
  Bits : Nat
  Nonce : Nat
  deriving DecidableEq, Repr

/-- `wire.MsgTx` (external btcd type): enough structure to distinguish
transactions; its content is carried through the wrappers untouched. -/
structure MsgTx where
  Version : Int
  TxIn : List (List Nat × Nat)
  TxOut : List (Int × List Nat)
  LockTime : Nat
  deriving DecidableEq, Repr

/-- `wire.MsgBlock` (external btcd type): a header and a transaction list. -/
structure MsgBlock where
  Header : BlockHeader
  Transactions : List MsgTx
  deriving DecidableEq, Repr

/-- `btcutil.Tx` (external btcd type): a wrapper around a `MsgTx` carrying a
block-position index. -/
structure BtcUtilTx where
  msgTx : MsgTx
  txIndex : Int
  deriving DecidableEq, Repr

/-- `btcutil.Tx.MsgTx`: returns the wrapped transaction. -/
def BtcUtilTx.MsgTx (tx : BtcUtilTx) : MsgTx := tx.msgTx

/-- Helper for `GetWrappedTxs`: wraps each transaction with its index,
starting at `i`. -/
def wrapTxsFrom (i : Int) : List MsgTx → List BtcUtilTx
  | [] => []
  | t :: rest => ⟨t, i⟩ :: wrapTxsFrom (i + 1) rest

/-- Modelled from the spec: `utils.GetWrappedTxs` (internal/utils, not under
src/) — the spec treats block/transaction decoding as an external
collaborator; the function wraps each transaction of the block into a
`btcutil.Tx`, setting its index to its position in the block. -/
def GetWrappedTxs (block : MsgBlock) : List BtcUtilTx :=
  wrapTxsFrom 0 block.Transactions

/-- `types.IndexedBlock`: a BTC block with height and wrapped transactions. -/
structure IndexedBlock where
  Height : Int
  Header : BlockHeader
  Txs : List BtcUtilTx
  deriving DecidableEq, Repr

/-- `types.NewIndexedBlockFromMsgBlock`. -/
def NewIndexedBlockFromMsgBlock (height : Int) (block : MsgBlock) :
    IndexedBlock :=
  ⟨height, block.Header, GetWrappedTxs block⟩

/-- `IndexedBlock.MsgBlock`: rebuilds a `wire.MsgBlock` from the header and
the unwrapped transactions. -/
def IndexedBlock.MsgBlock (ib : IndexedBlock) : MsgBlock :=
  ⟨ib.Header, ib.Txs.map BtcUtilTx.MsgTx⟩

/-! ## Theorems -/

/-- Claim C7: for every chain staking-parameters value, the versioned snapshot
built by `FromBbnStakingParams` carries the covenant public-key set, the
covenant quorum threshold, and the min/max timelock bounds
(`MinStakingTimeBlocks`, `MaxStakingTimeBlocks`) equal to the corresponding
fields of the input chain parameters. -/
theorem C7_fromBbnStakingParams_preserves_params (p : BbnParams) :
    (FromBbnStakingParams p).CovenantPks = p.CovenantPksHex ∧
    (FromBbnStakingParams p).CovenantQuorum = p.CovenantQuorum ∧
    (FromBbnStakingParams p).MinStakingTimeBlocks = p.MinStakingTimeBlocks ∧
    (FromBbnStakingParams p).MaxStakingTimeBlocks = p.MaxStakingTimeBlocks :=
  ⟨rfl, rfl, rfl, rfl⟩

/-- Claim C8: `NewError(s, c, e)` has `StatusCode` 500 when `s = 0` and `s`
otherwise, `ErrorCode` INTERNAL_SERVICE_ERROR when `c` is empty and `c`
otherwise, and preserves the underlying error unchanged. -/
theorem C8_newError_defaults (s : Int) (c : ApiErrorCode) (e : GoErr) :
    (NewError s c e).StatusCode = (if s = 0 then 500 else s) ∧
    (NewError s c e).ErrorCode = (if c = "" then InternalServiceError else c) ∧
    (NewError s c e).Err = e := by
  refine ⟨?_, ?_, rfl⟩ <;>
    simp [NewError, UninitializedStatusCode, httpStatusInternalServerError]

theorem wrapTxsFrom_map_msgTx (i : Int) (l : List MsgTx) :
    (wrapTxsFrom i l).map BtcUtilTx.MsgTx = l := by
  induction l generalizing i with
  | nil => rfl
  | cons t rest ih => simp [wrapTxsFrom, BtcUtilTx.MsgTx, ih]

/-- Claim C9: round-tripping through the indexed representation is the
identity on block content: `NewIndexedBlockFromMsgBlock(h, b).MsgBlock()` has
the same header and the same transaction sequence as `b`. -/
theorem C9_indexedBlock_roundTrip (h : Int) (b : MsgBlock) :
    (NewIndexedBlockFromMsgBlock h b).MsgBlock.Header = b.Header ∧
    (NewIndexedBlockFromMsgBlock h b).MsgBlock.Transactions = b.Transactions := by
  refine ⟨rfl, ?_⟩
  simp [NewIndexedBlockFromMsgBlock, IndexedBlock.MsgBlock, GetWrappedTxs,
    wrapTxsFrom_map_msgTx]

/-- Claim C10: `Poller.Stop` is not idempotent: on a fresh poller the first
call closes the `quit` channel (and a receive on the closed channel makes
`Start`'s loop return with no further poll invocation), while a second `Stop`
panics with "close of closed channel". -/
theorem C10_stop_not_idempotent :
    PollerStop NewPoller = .ok ⟨true⟩ ∧
    PollerStop ⟨true⟩ = .panicCloseOfClosedChannel ∧
    pollerStart [PollSignal.quit] = (some .quitClosed, 0) := by
  decide

theorem pollerStart_exit_cause (t : List PollSignal) (r : ExitReason)
    (h : (pollerStart t).1 = some r) :
    (r = .ctxCancelled ∧ PollSignal.ctxDone ∈ t) ∨
      (r = .quitClosed ∧ PollSignal.quit ∈ t) := by
  induction t with
  | nil => simp [pollerStart] at h
  | cons s rest ih =>
    cases s with
    | tick e =>
      have h' : (pollerStart rest).1 = some r := h
      rcases ih h' with ⟨hr, hm⟩ | ⟨hr, hm⟩
      · exact Or.inl ⟨hr, List.mem_cons_of_mem _ hm⟩
      · exact Or.inr ⟨hr, List.mem_cons_of_mem _ hm⟩
    | ctxDone =>
      simp [pollerStart] at h
      exact Or.inl ⟨h.symm, List.mem_cons_self _ _⟩
    | quit =>
      simp [pollerStart] at h
      exact Or.inr ⟨h.symm, List.mem_cons_self _ _⟩

/-- Claim C6: an error returned by one invocation of the poll function never
terminates the poller's loop: on a signal sequence consisting only of ticks
(with arbitrary per-tick poll errors) the loop does not exit and invokes the
poll function once per tick; and whenever the loop does exit, the exit is
caused by a context-cancellation or quit signal in the sequence. -/
theorem C6_poller_errors_never_terminate (trace : List PollSignal)
    (honly : ∀ s ∈ trace, ∃ e, s = PollSignal.tick e) :
    pollerStart trace = (none, trace.length) ∧
    ∀ t : List PollSignal, ∀ r : ExitReason, (pollerStart t).1 = some r →
      (r = .ctxCancelled ∧ PollSignal.ctxDone ∈ t) ∨
        (r = .quitClosed ∧ PollSignal.quit ∈ t) := by
  refine ⟨?_, fun t r h => pollerStart_exit_cause t r h⟩
  induction trace with
  | nil => rfl
  | cons s rest ih =>
    obtain ⟨e, rfl⟩ := honly s (List.mem_cons_self _ _)
    have hrest := ih (fun s hs => honly s (List.mem_cons_of_mem _ hs))
    simp [pollerStart, hrest]

theorem C6_poller_errors_never_terminate_witness :
    (∀ s ∈ [PollSignal.tick true, PollSignal.tick false, PollSignal.tick true],
      ∃ e, s = PollSignal.tick e) ∧
    pollerStart [PollSignal.tick true, PollSignal.tick false,
      PollSignal.tick true] = (none, 3) :=
  ⟨by decide,
    (C6_poller_errors_never_terminate
      [PollSignal.tick true, PollSignal.tick false, PollSignal.tick true]
      (by decide)).1⟩

/-- A store holding one marker for delegation "a" at height 100 with substate
TIMELOCK. -/
def c3Store : List TimeLockDocument := [⟨"a", 100, .timelock⟩]

/-- Claim C3 counterexample: markers are not deduplicated by the composite
(delegation, height, substate) key.  Inserting a marker for the same
delegation with a different height and a different substate — a different
composite key, so under the claim it should be created — nevertheless fails
with a duplicate-key error, because the collection's unique `_id` is the
staking transaction hash alone. -/
theorem C3_dedup_not_by_composite_key :
    SaveNewTimeLockExpire c3Store "a" 200 .earlyUnbonding =
      .error .duplicateKey ∧
    (NewTimeLockDocument "a" 200 .earlyUnbonding).expireHeight ≠
      (NewTimeLockDocument "a" 100 .timelock).expireHeight :=
  ⟨rfl, by decide⟩

/-- Claim C3 (amended): `SaveNewTimeLockExpire` returns a duplicate-key error
exactly when a marker with the same `stakingTxHash` already exists — in
particular when a marker with the same (delegation, height, substate)
composite key exists — and otherwise appends exactly the one new marker;
markers are deduplicated by `stakingTxHash` alone. -/
theorem C3_saveNewTimeLockExpire_dedup_by_hash (coll : List TimeLockDocument)
    (hash : String) (expireHeight : Nat) (subState : DelegationSubState) :
    (SaveNewTimeLockExpire coll hash expireHeight subState =
        .error .duplicateKey ↔ ∃ d ∈ coll, d.stakingTxHashHex = hash) ∧
    ((¬ ∃ d ∈ coll, d.stakingTxHashHex = hash) →
      SaveNewTimeLockExpire coll hash expireHeight subState =
        .ok (coll ++ [NewTimeLockDocument hash expireHeight subState])) := by
  by_cases hc : ∃ d ∈ coll, d.stakingTxHashHex = hash
  · have hany :
        coll.any (fun d => d.stakingTxHashHex =
          (NewTimeLockDocument hash expireHeight subState).stakingTxHashHex) =
          true := by
      simp only [NewTimeLockDocument, List.any_eq_true, decide_eq_true_eq]
      exact hc
    simp [SaveNewTimeLockExpire, insertOne, hany, hc]
  · have hany :
        coll.any (fun d => d.stakingTxHashHex =
          (NewTimeLockDocument hash expireHeight subState).stakingTxHashHex) =
          false := by
      simp only [NewTimeLockDocument, List.any_eq_false, decide_eq_true_eq]
      intro d hd heq
      exact hc ⟨d, hd, heq⟩
    simp [SaveNewTimeLockExpire, insertOne, hany, hc]

theorem C3_saveNewTimeLockExpire_dedup_by_hash_witness :
    (¬ ∃ d ∈ ([] : List TimeLockDocument), d.stakingTxHashHex = "a") ∧
    (SaveNewTimeLockExpire [] "a" 100 .timelock = .error .duplicateKey ↔
      ∃ d ∈ ([] : List TimeLockDocument), d.stakingTxHashHex = "a") ∧
    SaveNewTimeLockExpire [] "a" 100 .timelock =
      .ok [NewTimeLockDocument "a" 100 .timelock] := by
  have h := C3_saveNewTimeLockExpire_dedup_by_hash [] "a" 100 .timelock
  exact ⟨by simp, h.1, h.2 (by simp)⟩

theorem deleteOne_of_not_mem (coll : List TimeLockDocument) (hash : String)
    (h : ∀ d ∈ coll, d.stakingTxHashHex ≠ hash) :
    deleteOne coll hash = (coll, 0) := by
  induction coll with
  | nil => rfl
  | cons d rest ih =>
    have hd : ¬ d.stakingTxHashHex = hash := h d (List.mem_cons_self _ _)
    simp [deleteOne, hd, ih (fun d' hd' => h d' (List.mem_cons_of_mem _ hd'))]

theorem deleteOne_of_mem (coll : List TimeLockDocument) (hash : String)
    (h : ∃ d ∈ coll, d.stakingTxHashHex = hash) :
    (deleteOne coll hash).2 = 1 ∧
      (deleteOne coll hash).1.length + 1 = coll.length := by
  induction coll with
  | nil => simp at h
  | cons d rest ih =>
    by_cases hd : d.stakingTxHashHex = hash
    · simp [deleteOne, hd]
    · have hrest : ∃ d' ∈ rest, d'.stakingTxHashHex = hash := by
        rcases h with ⟨d', hd', heq⟩
        rcases List.mem_cons.mp hd' with rfl | hmem
        · exact absurd heq hd
        · exact ⟨d', hmem, heq⟩
      have := ih hrest
      simp [deleteOne, hd, this.1, ← this.2]

theorem deleteOne_preserves_other_hashes (coll : List TimeLockDocument)
    (hash : String) :
    (deleteOne coll hash).1.filter (fun d => d.stakingTxHashHex ≠ hash) =
      coll.filter (fun d => d.stakingTxHashHex ≠ hash) := by
  induction coll with
  | nil => rfl
  | cons d rest ih =>
    by_cases hd : d.stakingTxHashHex = hash
    · simp [deleteOne, hd, List.filter]
    · simp only [ne_eq, decide_not] at ih ⊢
      simp [deleteOne, hd, List.filter, ih]

/-- Claim C4: `DeleteExpiredDelegation` succeeds (no error) exactly when a
marker with the given hash exists; on success exactly one marker is removed;
when no marker with that hash exists it returns a not-found error and leaves
the collection unchanged; and in every case all markers with a different hash
are preserved (in order and multiplicity). -/
theorem C4_deleteExpiredDelegation_spec (coll : List TimeLockDocument)
    (hash : String) :
    ((DeleteExpiredDelegation coll hash).2 = none ↔
      ∃ d ∈ coll, d.stakingTxHashHex = hash) ∧
    ((DeleteExpiredDelegation coll hash).2 = none →
      (DeleteExpiredDelegation coll hash).1.length + 1 = coll.length) ∧
    ((DeleteExpiredDelegation coll hash).2 = some .notFound →
      (DeleteExpiredDelegation coll hash).1 = coll) ∧
    (DeleteExpiredDelegation coll hash).1.filter
        (fun d => d.stakingTxHashHex ≠ hash) =
      coll.filter (fun d => d.stakingTxHashHex ≠ hash) := by
  by_cases hc : ∃ d ∈ coll, d.stakingTxHashHex = hash
  · have h1 := deleteOne_of_mem coll hash hc
    refine ⟨?_, ?_, ?_, ?_⟩
    · simp [DeleteExpiredDelegation, h1.1, hc]
    · intro _
      simpa [DeleteExpiredDelegation, h1.1] using h1.2
    · intro habs
      simp [DeleteExpiredDelegation, h1.1] at habs
    · simpa [DeleteExpiredDelegation, h1.1] using
        deleteOne_preserves_other_hashes coll hash
  · have h0 : deleteOne coll hash = (coll, 0) := by
      refine deleteOne_of_not_mem coll hash ?_
      intro d hd heq
      exact hc ⟨d, hd, heq⟩
    refine ⟨?_, ?_, ?_, ?_⟩
    · simp [DeleteExpiredDelegation, h0, hc]
    · intro habs
      simp [DeleteExpiredDelegation, h0] at habs
    · intro _
      simp [DeleteExpiredDelegation, h0]
    · simp [DeleteExpiredDelegation, h0]

theorem C4_deleteExpiredDelegation_spec_witness :
    ((DeleteExpiredDelegation [⟨"w", 7, .timelock⟩] "w").2 = none ↔
      ∃ d ∈ [TimeLockDocument.mk "w" 7 .timelock],
        d.stakingTxHashHex = "w") ∧
    (DeleteExpiredDelegation [⟨"w", 7, .timelock⟩] "w").1.length + 1 = 1 := by
  have h := C4_deleteExpiredDelegation_spec [⟨"w", 7, .timelock⟩] "w"
  exact ⟨h.1, h.2.1 (h.1.mpr ⟨⟨"w", 7, .timelock⟩, by simp⟩)⟩

/-- A store whose natural order is not sorted by expiry height: the marker at
height 5 was inserted before the marker at height 3. -/
def c1Store : List TimeLockDocument := [⟨"b", 5, .timelock⟩, ⟨"a", 3, .timelock⟩]

/-- Claim C1 counterexample: the expiry scan query sets no sort option, so the
returned sequence comes back in the collection's natural order, which need not
be ascending by (expireHeight, stakingTxHash).  At tip height 10 every marker
of `c1Store` is due, yet the returned sequence is the unsorted natural order. -/
theorem C1_find_expired_not_sorted :
    FindExpiredDelegations c1Store 10 10 =
      [⟨"b", 5, .timelock⟩, ⟨"a", 3, .timelock⟩] ∧
    isSortedByHeightThenHash (FindExpiredDelegations c1Store 10 10) = false ∧
    (∀ d ∈ c1Store, d.expireHeight ≤ 10) := by
  refine ⟨rfl, by decide, by decide⟩

/-- Claim C1 (amended): for a positive limit below `2^63` that is not
exceeded by the number of due markers, `FindExpiredDelegations` returns
exactly the markers with `expireHeight ≤ btcTipHeight`, in the collection's
natural (insertion) order — no sorting by (expireHeight, stakingTxHash) is
applied. -/
theorem C1_find_expired_returns_due_markers (coll : List TimeLockDocument)
    (btcTipHeight limit : Nat) (hpos : 0 < limit) (hsmall : limit < 2 ^ 63)
    (hfits :
      (coll.filter (fun d => d.expireHeight ≤ btcTipHeight)).length ≤ limit) :
    FindExpiredDelegations coll btcTipHeight limit =
      coll.filter (fun d => d.expireHeight ≤ btcTipHeight) := by
  have hm : limit % 2 ^ 64 = limit :=
    Nat.mod_eq_of_lt (lt_trans hsmall (by norm_num))
  have hint : int64OfUInt64 limit = (limit : Int) := by
    simp only [int64OfUInt64]
    rw [hm, if_pos hsmall]
  have hne : (limit : Int) ≠ 0 := by
    exact_mod_cast Nat.pos_iff_ne_zero.mp hpos
  unfold FindExpiredDelegations
  rw [hint]
  unfold applyFindLimit
  rw [if_neg hne, Int.natAbs_ofNat]
  exact List.take_of_length_le hfits

/-- A store of markers due at tip 20. -/
def c1WitnessStore : List TimeLockDocument :=
  [⟨"c", 4, .timelock⟩, ⟨"d", 15, .earlyUnbonding⟩]

theorem C1_find_expired_returns_due_markers_witness :
    0 < 10 ∧ (10 : Nat) < 2 ^ 63 ∧
    (c1WitnessStore.filter (fun d => d.expireHeight ≤ 20)).length ≤ 10 ∧
    FindExpiredDelegations c1WitnessStore 20 10 =
      c1WitnessStore.filter (fun d => d.expireHeight ≤ 20) :=
  ⟨by decide, by decide, by decide,
    C1_find_expired_returns_due_markers c1WitnessStore 20 10 (by decide)
      (by decide) (by decide)⟩

theorem applyFindLimit_length_le (n : Int) (docs : List TimeLockDocument)
    (h : n ≠ 0) : (applyFindLimit n docs).length ≤ n.natAbs := by
  simp only [applyFindLimit, if_neg h]
  exact List.length_take_le _ _

/-- A store with two markers due at tip 10 and one not yet due. -/
def c5Store : List TimeLockDocument :=
  [⟨"x", 1, .timelock⟩, ⟨"y", 2, .earlyUnbonding⟩, ⟨"z", 99, .timelock⟩]

/-- Claim C5 counterexample: the claim quantifies over every limit L, but a
limit of 0 is passed through to the driver's `SetLimit(0)`, which means *no*
limit: at tip 10 with limit 0 the scan returns 2 markers, not at most 0. -/
theorem C5_find_expired_limit_zero_unbounded :
    (FindExpiredDelegations c5Store 10 0).length = 2 ∧
    ¬ (FindExpiredDelegations c5Store 10 0).length ≤ 0 := by
  decide

/-- Claim C5 (amended): for every tip height and every positive limit L (a
Go `uint64`, so `L < 2^64`), the expiry scan query returns at most L markers;
only the excluded value L = 0 is unbounded, as it means "no limit" for the
driver. -/
theorem C5_find_expired_bounded_by_limit (coll : List TimeLockDocument)
    (btcTipHeight limit : Nat) (hpos : 0 < limit) (hlt : limit < 2 ^ 64) :
    (FindExpiredDelegations coll btcTipHeight limit).length ≤ limit := by
  have hm : limit % 2 ^ 64 = limit := Nat.mod_eq_of_lt hlt
  have hne : int64OfUInt64 limit ≠ 0 := by
    simp only [int64OfUInt64]
    rw [hm]
    split <;> omega
  have habs : (int64OfUInt64 limit).natAbs ≤ limit := by
    simp only [int64OfUInt64]
    rw [hm]
    split <;> omega
  calc (FindExpiredDelegations coll btcTipHeight limit).length
      ≤ (int64OfUInt64 limit).natAbs := applyFindLimit_length_le _ _ hne
    _ ≤ limit := habs

theorem C5_find_expired_bounded_by_limit_witness :
    0 < 1 ∧ (1 : Nat) < 2 ^ 64 ∧
    (FindExpiredDelegations
      [⟨"u", 1, .timelock⟩, ⟨"v", 2, .timelock⟩] 10 1).length ≤ 1 :=
  ⟨by decide, by decide,
    C5_find_expired_bounded_by_limit
      [⟨"u", 1, .timelock⟩, ⟨"v", 2, .timelock⟩] 10 1 (by decide) (by decide)⟩

theorem setDelegationState_stakingTxHash (hash : String)
    (ns : DelegationState) (nss : Option DelegationSubState)
    (r : DelegationRecord) :
    (setDelegationState hash ns nss r).stakingTxHash = r.stakingTxHash := by
  simp only [setDelegationState]
  split <;> rfl

theorem find?_map_setDelegationState (store : List DelegationRecord)
    (hash : String) (ns : DelegationState) (nss : Option DelegationSubState) :
    (store.map (setDelegationState hash ns nss)).find?
        (fun r' => r'.stakingTxHash = hash) =
      (store.find? (fun r' => r'.stakingTxHash = hash)).map
        (setDelegationState hash ns nss) := by
  induction store with
  | nil => rfl
  | cons d rest ih =>
    by_cases hd : d.stakingTxHash = hash
    · simp [List.find?_cons, setDelegationState_stakingTxHash, hd]
    · simp [List.find?_cons, setDelegationState_stakingTxHash, hd, ih]

theorem filter_map_setDelegationState (store : List DelegationRecord)
    (hash : String) (ns : DelegationState) (nss : Option DelegationSubState) :
    (store.map (setDelegationState hash ns nss)).filter
        (fun r' => r'.stakingTxHash ≠ hash) =
      store.filter (fun r' => r'.stakingTxHash ≠ hash) := by
  induction store with
  | nil => rfl
  | cons d rest ih =>
    simp only [ne_eq, decide_not] at ih ⊢
    by_cases hd : d.stakingTxHash = hash
    · simp [List.filter, setDelegationState_stakingTxHash, hd, ih]
    · have hid : setDelegationState hash ns nss d = d := by
        simp [setDelegationState, hd]
      simp [List.filter, setDelegationState_stakingTxHash, hd, ih, hid]

/-- Claim C2: the conditional state update applies the new state exactly when
the currently stored state is a member of the qualified-previous-state set:
the outcome is Applied iff the stored state is qualified; on a precondition
failure the store is returned entirely unchanged; and on success the target
record gets the new state and sub-state with all its other fields preserved,
while every record with a different hash is untouched. -/
theorem C2_updateBTCDelegationState_conditional (store : List DelegationRecord)
    (hash : String) (q : List DelegationState) (ns : DelegationState)
    (nss : Option DelegationSubState) (r : DelegationRecord)
    (hfind : store.find? (fun r' => r'.stakingTxHash = hash) = some r) :
    ((UpdateBTCDelegationState store hash q ns nss).2 = .applied ↔
      r.state ∈ q) ∧
    ((UpdateBTCDelegationState store hash q ns nss).2 = .preconditionFailed →
      (UpdateBTCDelegationState store hash q ns nss).1 = store) ∧
    (r.state ∈ q →
      (UpdateBTCDelegationState store hash q ns nss).1.find?
          (fun r' => r'.stakingTxHash = hash) =
        some { r with state := ns, subState := nss } ∧
      (UpdateBTCDelegationState store hash q ns nss).1.filter
          (fun r' => r'.stakingTxHash ≠ hash) =
        store.filter (fun r' => r'.stakingTxHash ≠ hash)) := by
  have hrhash : r.stakingTxHash = hash := by
    have := List.find?_some hfind
    simpa using this
  simp only [UpdateBTCDelegationState, hfind]
  by_cases hq : r.state ∈ q
  · rw [if_pos hq]
    refine ⟨by simp [hq], by simp, fun _ => ⟨?_, ?_⟩⟩
    · rw [find?_map_setDelegationState, hfind]
      simp [setDelegationState, hrhash]
    · exact filter_map_setDelegationState store hash ns nss
  · rw [if_neg hq]
    exact ⟨by simp [hq], fun _ => rfl, fun hq' => absurd hq' hq⟩

/-- A store with one delegation in ACTIVE state. -/
def c2Store : List DelegationRecord :=
  [⟨"h", .active, none, [("cpk", "sig")], some 100, ["fp"]⟩]

theorem C2_updateBTCDelegationState_conditional_witness :
    c2Store.find? (fun r' => r'.stakingTxHash = "h") =
      some ⟨"h", .active, none, [("cpk", "sig")], some 100, ["fp"]⟩ ∧
    ((UpdateBTCDelegationState c2Store "h" [.active] .unbonding
        (some .earlyUnbonding)).2 = .applied ↔
      DelegationState.active ∈ [DelegationState.active]) :=
  ⟨by decide,
    (C2_updateBTCDelegationState_conditional c2Store "h" [.active] .unbonding
      (some .earlyUnbonding)
      ⟨"h", .active, none, [("cpk", "sig")], some 100, ["fp"]⟩ (by decide)).1⟩

end Indexer
